import Mathlib

/-!
Verification of the engel reactive UI toolkit core.

The development shallowly embeds the event-dispatch engine, the view-update
aggregator, the mouse-input adapter and the host redraw decision of the
repository.  Functions present in the sources (`Prim::send_system_msg`,
`Prim::update_view`, `Prim::need_recalc`, `Prim::need_redraw`,
`Path::intersect`, `MouseController`, the glutin redraw branch) are translated
directly from the code.  Types and functions whose defining modules are not
among the sources (the `Shape` variants other than `Path`, `EventName`,
`Listener`, `UpdateView`, `ChangeView`, `Animate`, the `Node` wrapper) are
modelled from the specification and carry a doc comment saying so.

Scalar values (the source's `Real` floating-point alias) are modelled by the
rationals; durations are rational numbers of seconds.
-/

namespace Engel

/-- Scalar coordinate type.  The source aliases `Real` to a floating-point
type; the embedding uses the rationals. -/
abbrev Real := ℚ

/-- Mouse buttons, from `src/core/src/controller/mouse.rs` (`MouseButton`). -/
inductive MouseButton where
  | left
  | right
  | middle
  | other (code : ℕ)
deriving DecidableEq

/-- Cursor position, from `src/core/src/controller/mouse.rs` (`MousePos`).
The Rust `Default` derive yields the origin `(0, 0)`. -/
structure MousePos where
  x : Real
  y : Real
deriving DecidableEq

/-- Mouse-press payload, from `src/core/src/controller/mouse.rs`
(`MouseDown`). -/
structure MouseDown where
  pos : MousePos
  button : MouseButton
deriving DecidableEq

/-- Mouse-scroll payload, from `src/core/src/controller/mouse.rs`
(`MouseScroll`). -/
structure MouseScroll where
  pos : MousePos
  delta : Real × Real
deriving DecidableEq

/-- Modelled from the spec: the keyboard adapter "simply tags each
press/release with scancode and an optional platform-independent key
identifier" (the `KeyboardEvent` module is not among the sources; the key
identifier enumeration is modelled by a numeric code). -/
structure KeyboardEvent where
  scancode : ℕ
  keycode : Option ℕ
deriving DecidableEq

/-- Modelled from the spec: the input-event union
`Input(MouseDown | MouseScroll | KeyDown | KeyUp | Char)` of §3; the variant
shapes match their uses in `Prim::send_system_msg`. -/
inductive InputEvent where
  | mouseDown (press : MouseDown)
  | mouseScroll (scroll : MouseScroll)
  | keyDown (event : KeyboardEvent)
  | keyUp (event : KeyboardEvent)
  | char (ch : Char)
deriving DecidableEq

/-- Modelled from the spec: `SystemMessage` is "one of:
Input(...), Draw(elapsed-duration), WindowResized(width, height)" (§3); the
variant shapes match their uses in `Prim::send_system_msg`.  The elapsed
duration is a rational number of seconds. -/
inductive SystemMessage where
  | input (event : InputEvent)
  | draw (elapsed : Real)
  | windowResized (width : ℕ) (height : ℕ)
deriving DecidableEq

/-- Modelled from the spec: the event-kind enumeration
{MouseDown, Blur, MouseScroll, KeyDown, KeyUp, InputChar, Draw,
WindowResized} (§3); the names mirror the `EventName` constants used in
`Prim::send_system_msg`. -/
inductive EventName where
  | onMouseDown
  | onBlur
  | onMouseScroll
  | onKeyDown
  | onKeyUp
  | onInputChar
  | draw
  | windowResized
deriving DecidableEq

/-- Path segment commands, from `src/core/src/node/shape/path.rs`
(`PathCommand`). -/
inductive PathCommand where
  | move (p : Real × Real)
  | moveRel (p : Real × Real)
  | line (p : Real × Real)
  | lineRel (p : Real × Real)
  | lineAlonX (x : Real)
  | lineAlonXRel (x : Real)
  | lineAlonY (y : Real)
  | lineAlonYRel (y : Real)
  | close
  | bezCtrl (p : Real × Real)
  | bezCtrlRel (p : Real × Real)
  | bezReflectCtrl
  | quadBezTo (p : Real × Real)
  | quadBezToRel (p : Real × Real)
  | cubBezTo (p : Real × Real)
  | cubBezToRel (p : Real × Real)
deriving DecidableEq

/-- Path shape, from `src/core/src/node/shape/path.rs` (`Path`).  The paint
and transform fields (`stroke`, `fill`, `clip`, `transform`) are omitted:
their defining modules are not among the sources and no verified claim
depends on them. -/
structure Path where
  id : Option String
  cmd : List PathCommand
  transparency : Real
deriving DecidableEq

/-- Translation of `Path::intersect` from `src/core/src/node/shape/path.rs`: returns `false`
for every point (the containment test is an explicit `TODO` stub in the
source). -/
def Path.intersect (_p : Path) (_x _y : Real) : Bool :=
  false

/-- Modelled from the spec: `Shape` is a "tagged union over
{Rect, Circle, Path, Text, Group}" (§3).  The `Path` variant carries the
source `Path` structure; geometry fields of the other variants follow the
spec (`Rect(x0,y0,w,h)` in §8, circle centre and radius).  Paint, opacity,
identifier and transform fields are omitted: no verified claim depends on
them. -/
inductive Shape where
  | rect (x y width height : Real)
  | circle (cx cy radius : Real)
  | path (p : Path)
  | text (content : String)
  | group
deriving DecidableEq

/-- Modelled from the spec: hit-testing (§4.1).  Rect and circle containment
follow the spec geometry; `Group has no geometry and therefore never
hit-tests positively itself`; the `Path` case is the source stub
`Path::intersect` (always `false`); text containment is unspecified in the
spec and no verified claim depends on it, so it conservatively reports no
containment. -/
def Shape.intersect : Shape → Real → Real → Bool
  | .rect x0 y0 w h, x, y => decide (x0 ≤ x ∧ x ≤ x0 + w ∧ y0 ≤ y ∧ y ≤ y0 + h)
  | .circle cx cy r, x, y => decide ((x - cx) ^ 2 + (y - cy) ^ 2 ≤ r ^ 2)
  | .path p, x, y => p.intersect x y
  | .text _, _, _ => false
  | .group, _, _ => false

/-- Modelled from the spec: a listener is "a tagged callback keyed by an
event-kind enumeration", whose callback "receives a context pairing the
owning node's mutable Shape with the triggering event payload, and returns
exactly one application message" (§3).  The callback argument types mirror
the `On { prim, event }` contexts built in `Prim::send_system_msg`
(the `Draw` and `WindowResized` callbacks receive only the payload there);
the context's shape access is modelled by passing the owning shape. -/
inductive Listener (Msg : Type) where
  | onMouseDown (func : Shape → MouseDown → Msg)
  | onBlur (func : Shape → MouseDown → Msg)
  | onMouseScroll (func : Shape → MouseScroll → Msg)
  | onKeyDown (func : Shape → KeyboardEvent → Msg)
  | onKeyUp (func : Shape → KeyboardEvent → Msg)
  | onInputChar (func : Shape → Char → Msg)
  | draw (func : Real → Msg)
  | windowResized (func : ℕ → ℕ → Msg)

/-- Modelled from the spec: the event kind a listener is typed for
("a tagged callback keyed by an event-kind enumeration", §3). -/
def Listener.eventName {Msg : Type} : Listener Msg → EventName
  | .onMouseDown _ => .onMouseDown
  | .onBlur _ => .onBlur
  | .onMouseScroll _ => .onMouseScroll
  | .onKeyDown _ => .onKeyDown
  | .onKeyUp _ => .onKeyUp
  | .onInputChar _ => .onInputChar
  | .draw _ => .draw
  | .windowResized _ => .windowResized

/-- The listener registry `HashMap<EventName, Vec<Listener<M>>>` of `Prim`,
modelled as a total map to listener lists (an absent key behaves as the
empty list: the source's `if let Some(listeners)` skips an absent key, and
iterating an empty list likewise produces nothing). -/
abbrev Listeners (Msg : Type) := EventName → List (Listener Msg)

/-- Modelled from the spec: a registry is well formed when every listener
stored under an event kind is typed for that kind ("mapping from event-kind
to an ordered sequence of typed callback values", §3). -/
def WellFormedListeners {Msg : Type} (listeners : Listeners Msg) : Prop :=
  ∀ k : EventName, ∀ l ∈ listeners k, l.eventName = k

/-- The `InputEvent::MouseDown` listener loop of `Prim::send_system_msg`
(src/core/src/node/prim.rs, hit branch): each `Listener::OnMouseDown` in
order produces one message; other variants are skipped (`continue`). -/
def fireMouseDown {Msg : Type} (shape : Shape) (press : MouseDown)
    (ls : List (Listener Msg)) : List Msg :=
  ls.filterMap fun l =>
    match l with
    | .onMouseDown func => some (func shape press)
    | _ => none

/-- The `InputEvent::MouseDown` listener loop of `Prim::send_system_msg`
(miss branch): each `Listener::OnBlur` in order produces one message. -/
def fireBlur {Msg : Type} (shape : Shape) (press : MouseDown)
    (ls : List (Listener Msg)) : List Msg :=
  ls.filterMap fun l =>
    match l with
    | .onBlur func => some (func shape press)
    | _ => none

/-- The `InputEvent::MouseScroll` listener loop of `Prim::send_system_msg`. -/
def fireMouseScroll {Msg : Type} (shape : Shape) (scroll : MouseScroll)
    (ls : List (Listener Msg)) : List Msg :=
  ls.filterMap fun l =>
    match l with
    | .onMouseScroll func => some (func shape scroll)
    | _ => none

/-- The `InputEvent::KeyDown` listener loop of `Prim::send_system_msg`. -/
def fireKeyDown {Msg : Type} (shape : Shape) (event : KeyboardEvent)
    (ls : List (Listener Msg)) : List Msg :=
  ls.filterMap fun l =>
    match l with
    | .onKeyDown func => some (func shape event)
    | _ => none

/-- The `InputEvent::KeyUp` listener loop of `Prim::send_system_msg`. -/
def fireKeyUp {Msg : Type} (shape : Shape) (event : KeyboardEvent)
    (ls : List (Listener Msg)) : List Msg :=
  ls.filterMap fun l =>
    match l with
    | .onKeyUp func => some (func shape event)
    | _ => none

/-- The `InputEvent::Char` listener loop of `Prim::send_system_msg`. -/
def fireInputChar {Msg : Type} (shape : Shape) (ch : Char)
    (ls : List (Listener Msg)) : List Msg :=
  ls.filterMap fun l =>
    match l with
    | .onInputChar func => some (func shape ch)
    | _ => none

/-- The `SystemMessage::Draw` listener loop of `Prim::send_system_msg`:
the callback receives only the elapsed duration. -/
def fireDraw {Msg : Type} (elapsed : Real) (ls : List (Listener Msg)) : List Msg :=
  ls.filterMap fun l =>
    match l with
    | .draw func => some (func elapsed)
    | _ => none

/-- The `SystemMessage::WindowResized` listener loop of
`Prim::send_system_msg`: the callback receives the new dimensions. -/
def fireWindowResized {Msg : Type} (width height : ℕ)
    (ls : List (Listener Msg)) : List Msg :=
  ls.filterMap fun l =>
    match l with
    | .windowResized func => some (func width height)
    | _ => none

/-- The per-node part of `Prim::send_system_msg`
(src/core/src/node/prim.rs, lines 55-157): the match on the incoming
`SystemMessage` before the recursion into children.  Mouse presses are gated
by `self.intersect` into the `OnMouseDown` or `OnBlur` loop; scrolls fire
the `OnMouseScroll` loop only on a hit; key, char, draw and resize events
fire their loops unconditionally. -/
def primOutputs {Msg : Type} (shape : Shape) (listeners : Listeners Msg) :
    SystemMessage → List Msg
  | .input (.mouseDown press) =>
      if shape.intersect press.pos.x press.pos.y then
        fireMouseDown shape press (listeners .onMouseDown)
      else
        fireBlur shape press (listeners .onBlur)
  | .input (.mouseScroll scroll) =>
      if shape.intersect scroll.pos.x scroll.pos.y then
        fireMouseScroll shape scroll (listeners .onMouseScroll)
      else
        []
  | .input (.keyDown event) => fireKeyDown shape event (listeners .onKeyDown)
  | .input (.keyUp event) => fireKeyUp shape event (listeners .onKeyUp)
  | .input (.char ch) => fireInputChar shape ch (listeners .onInputChar)
  | .draw elapsed => fireDraw elapsed (listeners .draw)
  | .windowResized width height => fireWindowResized width height (listeners .windowResized)

/-- The node tree.  `Prim<M>` (src/core/src/node/prim.rs) owns a name, a
`Shape`, an ordered list of children and its listener registry.  The source
recursion goes through the `Node<M>` wrapper, whose defining module is not
among the sources; modelled from the spec: "Node: owns exactly one Shape and
an ordered, owned sequence of child Nodes, plus its Listener registry" (§3),
which makes a node exactly a `Prim`, so children are `Prim`s directly. -/
inductive Prim (Msg : Type) where
  | mk (name : String) (shape : Shape) (children : List (Prim Msg))
      (listeners : Listeners Msg)

/-- The `shape` field of `Prim`. -/
def Prim.shape {Msg : Type} : Prim Msg → Shape
  | .mk _ s _ _ => s

/-- The `children` field of `Prim`. -/
def Prim.children {Msg : Type} : Prim Msg → List (Prim Msg)
  | .mk _ _ c _ => c

/-- The `listeners` field of `Prim`. -/
def Prim.listeners {Msg : Type} : Prim Msg → Listeners Msg
  | .mk _ _ _ ls => ls

/-- Translation of `Prim::send_system_msg` (src/core/src/node/prim.rs, lines 55-162):
process the message at this node, then recurse into every child with the
same message; all produced messages are appended in visitation order to one
output batch (the Rust accumulator `outputs` is modelled by returning the
batch). -/
def Prim.send_system_msg {Msg : Type} (msg : SystemMessage) : Prim Msg → List Msg
  | .mk _ shape children listeners =>
      primOutputs shape listeners msg ++
        (children.attach.map fun c => c.1.send_system_msg msg).flatten
decreasing_by have h := List.sizeOf_lt_of_mem c.2; simp; omega

/-- Depth-first pre-order traversal of the node tree: the node itself, then
the pre-order traversals of its children in order (spec §4.4). -/
def Prim.preorder {Msg : Type} : Prim Msg → List (Prim Msg)
  | .mk name shape children listeners =>
      .mk name shape children listeners ::
        (children.attach.map fun c => c.1.preorder).flatten
decreasing_by have h := List.sizeOf_lt_of_mem c.2; simp; omega

/-- Number of nodes of the tree. -/
def Prim.size {Msg : Type} : Prim Msg → ℕ
  | .mk _ _ children _ => 1 + (children.attach.map fun c => c.1.size).sum
decreasing_by have h := List.sizeOf_lt_of_mem c.2; simp; omega

/-- Modelled from the spec: `UpdateView` is "{None, Modify} — per-subtree
dirtiness aggregate, produced by merging child results with the same
'maximum wins' rule" (§3); its defining module is not among the sources. -/
inductive UpdateView where
  | none
  | modify
deriving DecidableEq

/-- Numeric rank of an `UpdateView` under the order None < Modify. -/
def UpdateView.toNat : UpdateView → ℕ
  | .none => 0
  | .modify => 1

/-- Modelled from the spec: `UpdateView` merging is "maximum wins" with
`None` as identity (§3, §4.5); the defining module is not among the
sources. -/
def UpdateView.merge : UpdateView → UpdateView → UpdateView
  | .none, other => other
  | .modify, _ => .modify

/-- Translation of `Prim::update_view` (src/core/src/node/prim.rs, lines 164-170): fold the
children, merging each child's result into the accumulator, starting from
`UpdateView::None`. -/
def Prim.update_view {Msg : Type} : Prim Msg → UpdateView
  | .mk _ _ children _ =>
      children.attach.foldl (fun update c => (c.1.update_view).merge update)
        UpdateView.none
decreasing_by have h := List.sizeOf_lt_of_mem c.2; simp; omega

/-- Translation of `Prim::need_recalc` (src/core/src/node/prim.rs, lines 192-194): the
primitive reports "not applicable" (`None`). -/
def Prim.need_recalc {Msg : Type} (_p : Prim Msg) : Option Bool :=
  none

/-- Translation of `Prim::need_redraw` (src/core/src/node/prim.rs, lines 196-198): the
primitive reports "not applicable" (`None`). -/
def Prim.need_redraw {Msg : Type} (_p : Prim Msg) : Option Bool :=
  none

/-- Merge of a list of `UpdateView` values with `None` as identity (the
spec-side aggregate of §4.5: "result = max over children, None is the
identity"). -/
def mergeAll (xs : List UpdateView) : UpdateView :=
  xs.foldr UpdateView.merge UpdateView.none

/-- Modelled from the spec: `ChangeView` is "{None, Modify, Rebuild} —
ordered None < Modify < Rebuild" (§3); its defining module is not among the
sources. -/
inductive ChangeView where
  | none
  | modify
  | rebuild
deriving DecidableEq

/-- Numeric rank of a `ChangeView` under the order
None < Modify < Rebuild. -/
def ChangeView.toNat : ChangeView → ℕ
  | .none => 0
  | .modify => 1
  | .rebuild => 2

/-- Modelled from the spec: `ChangeView` values are "combined by taking the
maximum" under the order None < Modify < Rebuild (§3); the defining module
is not among the sources. -/
def ChangeView.combine (a b : ChangeView) : ChangeView :=
  if a.toNat ≤ b.toNat then b else a

/-- Modelled from the spec: `Animate` holds "current value, target value,
approach rate" (§3); its defining module (`animation.rs`) is not among the
sources.  The spec's generic `Animate<T>` is instantiated at scalars. -/
structure Animate where
  current : Real
  target : Real
  rate : Real
deriving DecidableEq

/-- Modelled from the spec: `is_transient()` "reports whether current ≠
target beyond a negligible epsilon" (§4.2); over the rationals the epsilon
is zero. -/
def Animate.is_transient (a : Animate) : Bool :=
  decide (a.current ≠ a.target)

/-- Modelled from the spec: `animate(elapsed)` "moves current toward target
by rate * elapsed along the sign of (target − current); if the remaining
distance is ≤ that step, current snaps exactly to target" (§4.2). -/
def Animate.animate (a : Animate) (elapsed : Real) : Animate :=
  let step := a.rate * elapsed
  let dist := a.target - a.current
  if |dist| ≤ step then
    Animate.mk a.target a.target a.rate
  else if 0 < dist then
    Animate.mk (a.current + step) a.target a.rate
  else
    Animate.mk (a.current - step) a.target a.rate

/-- Outcome of one pass of the host redraw branch: whether the renderer was
invoked, whether the buffers were swapped, and whether the loop idled. -/
structure RedrawOutcome where
  rendered : Bool
  swapped : Bool
  idled : Bool
deriving DecidableEq

/-- The `Event::RedrawRequested` decision of `App::run_with_prerender`
(src/controller_glutin/src/lib.rs, lines 569-579): if
`comp.update_view()` is `Some`, the renderer is invoked and the buffers are
swapped exactly when `render` returned `true` (`expect` on a renderer error
aborts, modelled by propagating the error); if it is `None`, no render is
issued and the loop sleeps.  The renderer result is passed as a parameter;
the `rendered` flag records whether the branch actually invokes it. -/
def redraw_step {E : Type} (uv : Option UpdateView) (renderResult : Except E Bool) :
    Except E RedrawOutcome :=
  if uv.isSome then
    match renderResult with
    | .ok drew => .ok (RedrawOutcome.mk true drew false)
    | .error e => .error e
  else
    .ok (RedrawOutcome.mk false false true)

/-- Mouse-position tracker, from `src/core/src/controller/mouse.rs`
(`MouseController`): the last known cursor position and offset, both absent
until the first `update_pos`. -/
structure MouseController where
  lastPosField : Option MousePos
  lastOffsetField : Option MousePos
deriving DecidableEq

/-- Translation of `MouseController::new` (src/core/src/controller/mouse.rs, lines 36-42). -/
def MouseController.new : MouseController :=
  MouseController.mk none none

/-- Translation of `MouseController::update_pos` (src/core/src/controller/mouse.rs, lines
44-55): records the new position and the offset from the previous one (the
y component reversed), the offset defaulting to the origin on the first
call. -/
def MouseController.update_pos (c : MouseController) (x y : Real) : MouseController :=
  let offset := (c.lastPosField.map fun last => MousePos.mk (x - last.x) (last.y - y)).getD
    (MousePos.mk 0 0)
  MouseController.mk (some (MousePos.mk x y)) (some offset)

/-- Translation of `MouseController::last_pos` (src/core/src/controller/mouse.rs, lines
57-59): `self.last_pos.unwrap_or_default()`, the default position being the
origin. -/
def MouseController.last_pos (c : MouseController) : MousePos :=
  c.lastPosField.getD (MousePos.mk 0 0)

/-- Translation of `InputEvent::mouse_down`, the constructor used by
`MouseController::pressed_comp`; modelled from the spec (its defining
module is not among the sources): it packages position and button into the
mouse-press input variant. -/
def InputEvent.mouse_down (pos : MousePos) (button : MouseButton) : InputEvent :=
  .mouseDown (MouseDown.mk pos button)

/-- Translation of `InputEvent::mouse_scroll`, the constructor used by
`MouseController::mouse_scroll`; modelled from the spec (its defining
module is not among the sources). -/
def InputEvent.mouse_scroll (scroll : MouseScroll) : InputEvent :=
  .mouseScroll scroll

/-- Translation of the message built by `MouseController::pressed_comp` (src/core/src/controller/mouse.rs,
lines 61-64) builds this system message from the last known position and
forwards it to `Comp::send_system_msg`; `Comp` is not among the sources, so
the embedding exposes the message that is dispatched. -/
def MouseController.pressed_msg (c : MouseController) (button : MouseButton) :
    SystemMessage :=
  SystemMessage.input (InputEvent.mouse_down c.last_pos button)

/-- Translation of the message built by `MouseController::mouse_scroll` (src/core/src/controller/mouse.rs,
lines 66-72) builds this system message from the last known position and
forwards it to `Comp::send_system_msg`. -/
def MouseController.scroll_msg (c : MouseController) (delta : Real × Real) :
    SystemMessage :=
  SystemMessage.input (InputEvent.mouse_scroll (MouseScroll.mk c.last_pos delta))

/-- A concrete registry over numeric messages with one properly typed
listener per event kind, used to exercise the dispatch theorems. -/
def sampleListeners : Listeners ℕ := fun k =>
  match k with
  | .onMouseDown => [Listener.onMouseDown fun _ _ => 1]
  | .onBlur => [Listener.onBlur fun _ _ => 2]
  | .onMouseScroll => [Listener.onMouseScroll fun _ _ => 3]
  | .onKeyDown => [Listener.onKeyDown fun _ _ => 4]
  | .onKeyUp => [Listener.onKeyUp fun _ _ => 5]
  | .onInputChar => [Listener.onInputChar fun _ _ => 6]
  | .draw => [Listener.draw fun _ => 7]
  | .windowResized => [Listener.windowResized fun _ _ => 8]

/-- A concrete childless node used to exercise the aggregation theorems. -/
def leafPrim : Prim ℕ :=
  Prim.mk "leaf" Shape.group [] (fun _ => [])

/-- A concrete mouse press at the origin. -/
def originPress : MouseDown :=
  MouseDown.mk (MousePos.mk 0 0) MouseButton.left

theorem fireMouseDown_map {Msg : Type} (shape : Shape) (press : MouseDown)
    (fs : List (Shape → MouseDown → Msg)) :
    fireMouseDown shape press (fs.map Listener.onMouseDown) =
      fs.map fun f => f shape press := by
  induction fs with
  | nil => rfl
  | cons f fs ih => simpa [fireMouseDown, List.filterMap_cons] using ih

theorem fireBlur_map {Msg : Type} (shape : Shape) (press : MouseDown)
    (fs : List (Shape → MouseDown → Msg)) :
    fireBlur shape press (fs.map Listener.onBlur) = fs.map fun f => f shape press := by
  induction fs with
  | nil => rfl
  | cons f fs ih => simpa [fireBlur, List.filterMap_cons] using ih

theorem fireMouseScroll_map {Msg : Type} (shape : Shape) (scroll : MouseScroll)
    (fs : List (Shape → MouseScroll → Msg)) :
    fireMouseScroll shape scroll (fs.map Listener.onMouseScroll) =
      fs.map fun f => f shape scroll := by
  induction fs with
  | nil => rfl
  | cons f fs ih => simpa [fireMouseScroll, List.filterMap_cons] using ih

theorem fireKeyDown_map {Msg : Type} (shape : Shape) (event : KeyboardEvent)
    (fs : List (Shape → KeyboardEvent → Msg)) :
    fireKeyDown shape event (fs.map Listener.onKeyDown) =
      fs.map fun f => f shape event := by
  induction fs with
  | nil => rfl
  | cons f fs ih => simpa [fireKeyDown, List.filterMap_cons] using ih

theorem fireKeyUp_map {Msg : Type} (shape : Shape) (event : KeyboardEvent)
    (fs : List (Shape → KeyboardEvent → Msg)) :
    fireKeyUp shape event (fs.map Listener.onKeyUp) = fs.map fun f => f shape event := by
  induction fs with
  | nil => rfl
  | cons f fs ih => simpa [fireKeyUp, List.filterMap_cons] using ih

theorem fireInputChar_map {Msg : Type} (shape : Shape) (ch : Char)
    (fs : List (Shape → Char → Msg)) :
    fireInputChar shape ch (fs.map Listener.onInputChar) = fs.map fun f => f shape ch := by
  induction fs with
  | nil => rfl
  | cons f fs ih => simpa [fireInputChar, List.filterMap_cons] using ih

theorem fireDraw_map {Msg : Type} (elapsed : Real) (fs : List (Real → Msg)) :
    fireDraw elapsed (fs.map Listener.draw) = fs.map fun f => f elapsed := by
  induction fs with
  | nil => rfl
  | cons f fs ih => simpa [fireDraw, List.filterMap_cons] using ih

theorem fireWindowResized_map {Msg : Type} (width height : ℕ)
    (fs : List (ℕ → ℕ → Msg)) :
    fireWindowResized width height (fs.map Listener.windowResized) =
      fs.map fun f => f width height := by
  induction fs with
  | nil => rfl
  | cons f fs ih => simpa [fireWindowResized, List.filterMap_cons] using ih

theorem typed_of_kind_onMouseDown {Msg : Type} (ls : List (Listener Msg))
    (h : ∀ l ∈ ls, Listener.eventName l = EventName.onMouseDown) :
    ∃ fs : List (Shape → MouseDown → Msg), ls = fs.map Listener.onMouseDown := by
  induction ls with
  | nil => exact ⟨[], rfl⟩
  | cons l ls ih =>
      obtain ⟨fs, hfs⟩ := ih fun x hx => h x (List.mem_cons_of_mem _ hx)
      have hl := h l (List.mem_cons_self _ _)
      cases l
      case onMouseDown f => exact ⟨f :: fs, by simp [hfs]⟩
      all_goals simp [Listener.eventName] at hl

theorem typed_of_kind_onBlur {Msg : Type} (ls : List (Listener Msg))
    (h : ∀ l ∈ ls, Listener.eventName l = EventName.onBlur) :
    ∃ fs : List (Shape → MouseDown → Msg), ls = fs.map Listener.onBlur := by
  induction ls with
  | nil => exact ⟨[], rfl⟩
  | cons l ls ih =>
      obtain ⟨fs, hfs⟩ := ih fun x hx => h x (List.mem_cons_of_mem _ hx)
      have hl := h l (List.mem_cons_self _ _)
      cases l
      case onBlur f => exact ⟨f :: fs, by simp [hfs]⟩
      all_goals simp [Listener.eventName] at hl

theorem typed_of_kind_onMouseScroll {Msg : Type} (ls : List (Listener Msg))
    (h : ∀ l ∈ ls, Listener.eventName l = EventName.onMouseScroll) :
    ∃ fs : List (Shape → MouseScroll → Msg), ls = fs.map Listener.onMouseScroll := by
  induction ls with
  | nil => exact ⟨[], rfl⟩
  | cons l ls ih =>
      obtain ⟨fs, hfs⟩ := ih fun x hx => h x (List.mem_cons_of_mem _ hx)
      have hl := h l (List.mem_cons_self _ _)
      cases l
      case onMouseScroll f => exact ⟨f :: fs, by simp [hfs]⟩
      all_goals simp [Listener.eventName] at hl

theorem typed_of_kind_onKeyDown {Msg : Type} (ls : List (Listener Msg))
    (h : ∀ l ∈ ls, Listener.eventName l = EventName.onKeyDown) :
    ∃ fs : List (Shape → KeyboardEvent → Msg), ls = fs.map Listener.onKeyDown := by
  induction ls with
  | nil => exact ⟨[], rfl⟩
  | cons l ls ih =>
      obtain ⟨fs, hfs⟩ := ih fun x hx => h x (List.mem_cons_of_mem _ hx)
      have hl := h l (List.mem_cons_self _ _)
      cases l
      case onKeyDown f => exact ⟨f :: fs, by simp [hfs]⟩
      all_goals simp [Listener.eventName] at hl

theorem typed_of_kind_onKeyUp {Msg : Type} (ls : List (Listener Msg))
    (h : ∀ l ∈ ls, Listener.eventName l = EventName.onKeyUp) :
    ∃ fs : List (Shape → KeyboardEvent → Msg), ls = fs.map Listener.onKeyUp := by
  induction ls with
  | nil => exact ⟨[], rfl⟩
  | cons l ls ih =>
      obtain ⟨fs, hfs⟩ := ih fun x hx => h x (List.mem_cons_of_mem _ hx)
      have hl := h l (List.mem_cons_self _ _)
      cases l
      case onKeyUp f => exact ⟨f :: fs, by simp [hfs]⟩
      all_goals simp [Listener.eventName] at hl

theorem typed_of_kind_onInputChar {Msg : Type} (ls : List (Listener Msg))
    (h : ∀ l ∈ ls, Listener.eventName l = EventName.onInputChar) :
    ∃ fs : List (Shape → Char → Msg), ls = fs.map Listener.onInputChar := by
  induction ls with
  | nil => exact ⟨[], rfl⟩
  | cons l ls ih =>
      obtain ⟨fs, hfs⟩ := ih fun x hx => h x (List.mem_cons_of_mem _ hx)
      have hl := h l (List.mem_cons_self _ _)
      cases l
      case onInputChar f => exact ⟨f :: fs, by simp [hfs]⟩
      all_goals simp [Listener.eventName] at hl

theorem typed_of_kind_draw {Msg : Type} (ls : List (Listener Msg))
    (h : ∀ l ∈ ls, Listener.eventName l = EventName.draw) :
    ∃ fs : List (Real → Msg), ls = fs.map Listener.draw := by
  induction ls with
  | nil => exact ⟨[], rfl⟩
  | cons l ls ih =>
      obtain ⟨fs, hfs⟩ := ih fun x hx => h x (List.mem_cons_of_mem _ hx)
      have hl := h l (List.mem_cons_self _ _)
      cases l
      case draw f => exact ⟨f :: fs, by simp [hfs]⟩
      all_goals simp [Listener.eventName] at hl

theorem typed_of_kind_windowResized {Msg : Type} (ls : List (Listener Msg))
    (h : ∀ l ∈ ls, Listener.eventName l = EventName.windowResized) :
    ∃ fs : List (ℕ → ℕ → Msg), ls = fs.map Listener.windowResized := by
  induction ls with
  | nil => exact ⟨[], rfl⟩
  | cons l ls ih =>
      obtain ⟨fs, hfs⟩ := ih fun x hx => h x (List.mem_cons_of_mem _ hx)
      have hl := h l (List.mem_cons_self _ _)
      cases l
      case windowResized f => exact ⟨f :: fs, by simp [hfs]⟩
      all_goals simp [Listener.eventName] at hl

theorem UpdateView.merge_comm (a b : UpdateView) : a.merge b = b.merge a := by
  cases a <;> cases b <;> rfl

theorem UpdateView.merge_assoc (a b c : UpdateView) :
    (a.merge b).merge c = a.merge (b.merge c) := by
  cases a <;> cases b <;> cases c <;> rfl

theorem UpdateView.merge_none_right (a : UpdateView) : a.merge UpdateView.none = a := by
  cases a <;> rfl

theorem foldl_merge_eq_mergeAll (xs : List UpdateView) (init : UpdateView) :
    xs.foldl (fun update u => u.merge update) init = (mergeAll xs).merge init := by
  induction xs generalizing init with
  | nil => rfl
  | cons x xs ih =>
      rw [List.foldl_cons, ih, show mergeAll (x :: xs) = x.merge (mergeAll xs) from rfl,
        ← UpdateView.merge_assoc, UpdateView.merge_comm (mergeAll xs) x]

theorem Prim.update_view_eq_mergeAll {Msg : Type} (p : Prim Msg) :
    p.update_view = mergeAll (p.children.map Prim.update_view) := by
  cases p with
  | mk name shape children listeners =>
      rw [Prim.update_view, show (Prim.mk name shape children listeners).children
        = children from rfl]
      rw [show (children.attach.foldl (fun update c => (c.1.update_view).merge update)
            UpdateView.none)
          = ((children.attach.map fun c => c.1.update_view).foldl
              (fun update u => u.merge update) UpdateView.none) from
        (List.foldl_map (fun c => c.1.update_view) (fun update u => u.merge update)
          children.attach UpdateView.none).symm]
      rw [List.attach_map_val children Prim.update_view, foldl_merge_eq_mergeAll,
        UpdateView.merge_none_right]

theorem Prim.send_eq_preorder_flatMap {Msg : Type} (msg : SystemMessage) (p : Prim Msg) :
    p.send_system_msg msg =
      p.preorder.flatMap fun q => primOutputs q.shape q.listeners msg := by
  induction p using Prim.send_system_msg.induct msg with
  | _ name shape children listeners ih =>
      rw [Prim.send_system_msg, Prim.preorder]
      simp only [List.flatMap_cons, List.flatMap_def, List.map_cons, List.flatten_cons,
        List.map_flatten, List.flatten_flatten, List.map_map, Function.comp_def,
        Prim.shape, Prim.listeners, ih]

theorem Prim.preorder_length_eq_size {Msg : Type} (p : Prim Msg) :
    p.preorder.length = p.size := by
  induction p using Prim.preorder.induct with
  | _ name shape children listeners ih =>
      rw [Prim.preorder, Prim.size]
      simp only [List.length_cons, List.length_flatten, List.map_map, Function.comp_def, ih]
      omega

theorem Animate.animate_snap (a : Animate) (elapsed : Real)
    (h : |a.target - a.current| ≤ a.rate * elapsed) :
    a.animate elapsed = Animate.mk a.target a.target a.rate := by
  simp only [Animate.animate]
  rw [if_pos h]

theorem Animate.animate_step_pos (a : Animate) (elapsed : Real)
    (h : ¬ |a.target - a.current| ≤ a.rate * elapsed)
    (hpos : 0 < a.target - a.current) :
    a.animate elapsed = Animate.mk (a.current + a.rate * elapsed) a.target a.rate := by
  simp only [Animate.animate]
  rw [if_neg h, if_pos hpos]

theorem Animate.animate_step_neg (a : Animate) (elapsed : Real)
    (h : ¬ |a.target - a.current| ≤ a.rate * elapsed)
    (hneg : ¬ 0 < a.target - a.current) :
    a.animate elapsed = Animate.mk (a.current - a.rate * elapsed) a.target a.rate := by
  simp only [Animate.animate]
  rw [if_neg h, if_neg hneg]

/-- C1: one call of the dispatch engine `Prim::send_system_msg` on a node
tree equals, for every `SystemMessage`, the concatenation in depth-first
pre-order of the messages produced at each node (its per-node dispatch
`primOutputs`), independent of any hit-test outcome (the equation holds for
every message and every tree); and the pre-order traversal visits exactly
`size` nodes, i.e. every node exactly once. -/
theorem send_system_msg_broadcasts_preorder {Msg : Type} (p : Prim Msg)
    (msg : SystemMessage) :
    p.send_system_msg msg =
      p.preorder.flatMap (fun q => primOutputs q.shape q.listeners msg)
    ∧ p.preorder.length = p.size :=
  ⟨Prim.send_eq_preorder_flatMap msg p, Prim.preorder_length_eq_size p⟩

/-- C4: the combination of `ChangeView` values is associative, has `None` as
identity, is absorbed by `Rebuild`, and is the maximum under the order
None < Modify < Rebuild. -/
theorem changeView_combine_is_max :
    (∀ a b c : ChangeView, (a.combine b).combine c = a.combine (b.combine c))
    ∧ (∀ a : ChangeView, ChangeView.none.combine a = a ∧ a.combine ChangeView.none = a)
    ∧ (∀ a : ChangeView, ChangeView.rebuild.combine a = ChangeView.rebuild
        ∧ a.combine ChangeView.rebuild = ChangeView.rebuild)
    ∧ (∀ a b : ChangeView, (a.combine b).toNat = max a.toNat b.toNat)
    ∧ ChangeView.none.toNat < ChangeView.modify.toNat
    ∧ ChangeView.modify.toNat < ChangeView.rebuild.toNat := by
  refine ⟨?_, ?_, ?_, ?_, ?_, ?_⟩
  · intro a b c; cases a <;> cases b <;> cases c <;> rfl
  · intro a; cases a <;> exact ⟨rfl, rfl⟩
  · intro a; cases a <;> exact ⟨rfl, rfl⟩
  · intro a b; cases a <;> cases b <;> rfl
  · exact Nat.zero_lt_one
  · exact Nat.lt_succ_self 1

/-- C5: for `Animate` with current 0, target 10, rate 5, one second of
animation yields current 5 and a transient state, and one further second
snaps current exactly to 10 with a settled state; in general one step snaps
to the target exactly when the remaining distance is at most
rate * elapsed, and otherwise moves current by rate * elapsed along the
sign of (target − current). -/
theorem animate_moves_then_snaps :
    (((Animate.mk 0 10 5).animate 1).current = 5
      ∧ ((Animate.mk 0 10 5).animate 1).is_transient = true
      ∧ (((Animate.mk 0 10 5).animate 1).animate 1).current = 10
      ∧ (((Animate.mk 0 10 5).animate 1).animate 1).is_transient = false)
    ∧ (∀ (a : Animate) (elapsed : Real),
        (|a.target - a.current| ≤ a.rate * elapsed →
          (a.animate elapsed).current = a.target
            ∧ (a.animate elapsed).is_transient = false)
        ∧ (¬ |a.target - a.current| ≤ a.rate * elapsed → 0 < a.target - a.current →
          (a.animate elapsed).current = a.current + a.rate * elapsed)
        ∧ (¬ |a.target - a.current| ≤ a.rate * elapsed → ¬ 0 < a.target - a.current →
          (a.animate elapsed).current = a.current - a.rate * elapsed)) := by
  constructor
  · have h1 : ¬ |(10:ℚ) - 0| ≤ 5 * 1 := by norm_num
    have e1 : (Animate.mk 0 10 5).animate 1 = Animate.mk 5 10 5 := by
      rw [Animate.animate_step_pos (Animate.mk 0 10 5) 1 h1 (by norm_num)]
      norm_num
    have h2 : |(10:ℚ) - 5| ≤ 5 * 1 := by norm_num
    have e2 : (Animate.mk 5 10 5).animate 1 = Animate.mk 10 10 5 :=
      Animate.animate_snap (Animate.mk 5 10 5) 1 h2
    rw [e1, e2]
    refine ⟨rfl, ?_, rfl, ?_⟩
    · simp only [Animate.is_transient, decide_eq_true_eq]
      norm_num
    · simp [Animate.is_transient]
  · intro a elapsed
    refine ⟨fun h => ?_, fun h hpos => ?_, fun h hneg => ?_⟩
    · rw [Animate.animate_snap a elapsed h]
      exact ⟨rfl, by simp [Animate.is_transient]⟩
    · rw [Animate.animate_step_pos a elapsed h hpos]
    · rw [Animate.animate_step_neg a elapsed h hneg]

/-- Witness for C5: at `Animate.mk 5 5 1` and one elapsed second the snap
hypothesis holds concretely, and the theorem yields current 5 and a settled
state. -/
theorem animate_moves_then_snaps_witness :
    |(Animate.mk 5 5 1).target - (Animate.mk 5 5 1).current| ≤ (Animate.mk 5 5 1).rate * 1
    ∧ ((Animate.mk 5 5 1).animate 1).current = 5
    ∧ ((Animate.mk 5 5 1).animate 1).is_transient = false := by
  have h : |(Animate.mk 5 5 1).target - (Animate.mk 5 5 1).current|
      ≤ (Animate.mk 5 5 1).rate * 1 := by
    show |(5:ℚ) - 5| ≤ 1 * 1
    simp
  have x := (animate_moves_then_snaps.2 (Animate.mk 5 5 1) 1).1 h
  exact ⟨h, x.1, x.2⟩

/-- C6: `Prim::update_view` returns the merge (maximum, `None` as identity)
of its children's results; a childless `Prim` returns `None`; the primitive
contributes no dirtiness of its own (`need_recalc` and `need_redraw` report
not-applicable); and `UpdateView` merging is the maximum with `None` as
identity. -/
theorem update_view_merges_children {Msg : Type} (p : Prim Msg) :
    p.update_view = mergeAll (p.children.map Prim.update_view)
    ∧ (p.children = [] → p.update_view = UpdateView.none)
    ∧ p.need_recalc = none
    ∧ p.need_redraw = none
    ∧ (∀ u v : UpdateView, (u.merge v).toNat = max u.toNat v.toNat)
    ∧ (∀ u : UpdateView, UpdateView.none.merge u = u ∧ u.merge UpdateView.none = u) := by
  refine ⟨Prim.update_view_eq_mergeAll p, ?_, rfl, rfl, ?_, ?_⟩
  · intro h
    rw [Prim.update_view_eq_mergeAll p, h]
    rfl
  · intro u v; cases u <;> cases v <;> rfl
  · intro u; exact ⟨rfl, UpdateView.merge_none_right u⟩

/-- Witness for C6: the childless sample node aggregates to `None`. -/
theorem update_view_merges_children_witness :
    leafPrim.children = [] ∧ leafPrim.update_view = UpdateView.none :=
  ⟨rfl, (update_view_merges_children leafPrim).2.1 rfl⟩

/-- C7: `Path::intersect` returns `false` for every path and every point, so
a node whose shape is a `Path` never reports containment: a scroll on it
fires nothing, and a press on it always takes the miss (`Blur`) branch —
its position-gated `MouseDown` and `MouseScroll` listeners never fire as
hits. -/
theorem path_intersect_always_false (p : Path) (x y : Real) :
    p.intersect x y = false
    ∧ Shape.intersect (Shape.path p) x y = false
    ∧ (∀ (Msg : Type) (listeners : Listeners Msg) (scroll : MouseScroll),
        primOutputs (Shape.path p) listeners (.input (.mouseScroll scroll)) = [])
    ∧ (∀ (Msg : Type) (listeners : Listeners Msg) (press : MouseDown),
        primOutputs (Shape.path p) listeners (.input (.mouseDown press))
          = fireBlur (Shape.path p) press (listeners EventName.onBlur)) := by
  refine ⟨rfl, rfl, ?_, ?_⟩
  · intro Msg listeners scroll
    simp [primOutputs, Shape.intersect, Path.intersect]
  · intro Msg listeners press
    simp [primOutputs, Shape.intersect, Path.intersect]

/-- C2: for a node whose registered mouse listeners are properly typed, a
`MouseDown` whose point lies inside the node's own shape fires exactly the
node's `MouseDown` listeners (so no `Blur` listener), a `MouseDown` outside
fires exactly the `Blur` listeners (so no `MouseDown` listener), a
`MouseScroll` inside fires exactly the `MouseScroll` listeners, and a
`MouseScroll` outside fires nothing on that node. -/
theorem mouse_hit_gating {Msg : Type} (shape : Shape) (listeners : Listeners Msg)
    (press : MouseDown) (scroll : MouseScroll)
    (fs bs : List (Shape → MouseDown → Msg)) (ss : List (Shape → MouseScroll → Msg))
    (hmd : listeners EventName.onMouseDown = fs.map Listener.onMouseDown)
    (hbl : listeners EventName.onBlur = bs.map Listener.onBlur)
    (hsc : listeners EventName.onMouseScroll = ss.map Listener.onMouseScroll) :
    (shape.intersect press.pos.x press.pos.y = true →
      primOutputs shape listeners (.input (.mouseDown press))
        = fs.map fun f => f shape press)
    ∧ (shape.intersect press.pos.x press.pos.y = false →
      primOutputs shape listeners (.input (.mouseDown press))
        = bs.map fun f => f shape press)
    ∧ (shape.intersect scroll.pos.x scroll.pos.y = true →
      primOutputs shape listeners (.input (.mouseScroll scroll))
        = ss.map fun f => f shape scroll)
    ∧ (shape.intersect scroll.pos.x scroll.pos.y = false →
      primOutputs shape listeners (.input (.mouseScroll scroll)) = []) := by
  refine ⟨?_, ?_, ?_, ?_⟩
  · intro hhit; simp [primOutputs, hhit, hmd, fireMouseDown_map]
  · intro hmiss; simp [primOutputs, hmiss, hbl, fireBlur_map]
  · intro hhit; simp [primOutputs, hhit, hsc, fireMouseScroll_map]
  · intro hmiss; simp [primOutputs, hmiss]

/-- Witness for C2: a press at the origin hits the degenerate rectangle at
the origin and fires its `MouseDown` listener (message 1); the same press
misses a `Group` (which never hit-tests positively) and fires its `Blur`
listener (message 2); a scroll missing the `Group` fires nothing. -/
theorem mouse_hit_gating_witness :
    (Shape.rect 0 0 0 0).intersect 0 0 = true
    ∧ Shape.group.intersect 0 0 = false
    ∧ primOutputs (Shape.rect 0 0 0 0) sampleListeners
        (.input (.mouseDown originPress)) = [1]
    ∧ primOutputs Shape.group sampleListeners
        (.input (.mouseDown originPress)) = [2]
    ∧ primOutputs Shape.group sampleListeners
        (.input (.mouseScroll (MouseScroll.mk (MousePos.mk 0 0) (0, 0)))) = [] := by
  have hhit : (Shape.rect 0 0 0 0).intersect 0 0 = true := by
    simp [Shape.intersect]
  have hmiss : Shape.group.intersect 0 0 = false := rfl
  refine ⟨hhit, hmiss, ?_, ?_, ?_⟩
  · exact (mouse_hit_gating (Shape.rect 0 0 0 0) sampleListeners originPress
      (MouseScroll.mk (MousePos.mk 0 0) (0, 0)) [fun _ _ => 1] [fun _ _ => 2]
      [fun _ _ => 3] rfl rfl rfl).1 hhit
  · exact (mouse_hit_gating Shape.group sampleListeners originPress
      (MouseScroll.mk (MousePos.mk 0 0) (0, 0)) [fun _ _ => 1] [fun _ _ => 2]
      [fun _ _ => 3] rfl rfl rfl).2.1 hmiss
  · exact (mouse_hit_gating Shape.group sampleListeners originPress
      (MouseScroll.mk (MousePos.mk 0 0) (0, 0)) [fun _ _ => 1] [fun _ _ => 2]
      [fun _ _ => 3] rfl rfl rfl).2.2.2 hmiss

/-- C3: on a node whose registry is well formed (every stored listener is
typed for its key), every incoming event fires all listeners registered
under the matching kind — the registered list is exactly a list of
callbacks, and the produced batch is their map in registration order, one
message per listener, none skipped (the mouse kinds under their hit-test
gate, the other kinds unconditionally). -/
theorem listeners_all_fire_in_order {Msg : Type} (shape : Shape)
    (listeners : Listeners Msg) (hwf : WellFormedListeners listeners) :
    (∀ press : MouseDown, shape.intersect press.pos.x press.pos.y = true →
      ∃ fs : List (Shape → MouseDown → Msg), listeners EventName.onMouseDown = fs.map Listener.onMouseDown ∧
        primOutputs shape listeners (.input (.mouseDown press))
          = fs.map fun f => f shape press)
    ∧ (∀ press : MouseDown, shape.intersect press.pos.x press.pos.y = false →
      ∃ fs : List (Shape → MouseDown → Msg), listeners EventName.onBlur = fs.map Listener.onBlur ∧
        primOutputs shape listeners (.input (.mouseDown press))
          = fs.map fun f => f shape press)
    ∧ (∀ scroll : MouseScroll, shape.intersect scroll.pos.x scroll.pos.y = true →
      ∃ fs : List (Shape → MouseScroll → Msg), listeners EventName.onMouseScroll = fs.map Listener.onMouseScroll ∧
        primOutputs shape listeners (.input (.mouseScroll scroll))
          = fs.map fun f => f shape scroll)
    ∧ (∀ event : KeyboardEvent,
      ∃ fs : List (Shape → KeyboardEvent → Msg), listeners EventName.onKeyDown = fs.map Listener.onKeyDown ∧
        primOutputs shape listeners (.input (.keyDown event))
          = fs.map fun f => f shape event)
    ∧ (∀ event : KeyboardEvent,
      ∃ fs : List (Shape → KeyboardEvent → Msg), listeners EventName.onKeyUp = fs.map Listener.onKeyUp ∧
        primOutputs shape listeners (.input (.keyUp event))
          = fs.map fun f => f shape event)
    ∧ (∀ ch : Char,
      ∃ fs : List (Shape → Char → Msg), listeners EventName.onInputChar = fs.map Listener.onInputChar ∧
        primOutputs shape listeners (.input (.char ch))
          = fs.map fun f => f shape ch)
    ∧ (∀ elapsed : Real,
      ∃ fs : List (Real → Msg), listeners EventName.draw = fs.map Listener.draw ∧
        primOutputs shape listeners (.draw elapsed) = fs.map fun f => f elapsed)
    ∧ (∀ width height : ℕ,
      ∃ fs : List (ℕ → ℕ → Msg), listeners EventName.windowResized = fs.map Listener.windowResized ∧
        primOutputs shape listeners (.windowResized width height)
          = fs.map fun f => f width height) := by
  obtain ⟨fsmd, hmd⟩ := typed_of_kind_onMouseDown _ (hwf .onMouseDown)
  obtain ⟨fsbl, hbl⟩ := typed_of_kind_onBlur _ (hwf .onBlur)
  obtain ⟨fssc, hsc⟩ := typed_of_kind_onMouseScroll _ (hwf .onMouseScroll)
  obtain ⟨fskd, hkd⟩ := typed_of_kind_onKeyDown _ (hwf .onKeyDown)
  obtain ⟨fsku, hku⟩ := typed_of_kind_onKeyUp _ (hwf .onKeyUp)
  obtain ⟨fsic, hic⟩ := typed_of_kind_onInputChar _ (hwf .onInputChar)
  obtain ⟨fsdr, hdr⟩ := typed_of_kind_draw _ (hwf .draw)
  obtain ⟨fswr, hwr⟩ := typed_of_kind_windowResized _ (hwf .windowResized)
  refine ⟨?_, ?_, ?_, ?_, ?_, ?_, ?_, ?_⟩
  · intro press hhit
    exact ⟨fsmd, hmd, by simp [primOutputs, hhit, hmd, fireMouseDown_map]⟩
  · intro press hmiss
    exact ⟨fsbl, hbl, by simp [primOutputs, hmiss, hbl, fireBlur_map]⟩
  · intro scroll hhit
    exact ⟨fssc, hsc, by simp [primOutputs, hhit, hsc, fireMouseScroll_map]⟩
  · intro event
    exact ⟨fskd, hkd, by simp [primOutputs, hkd, fireKeyDown_map]⟩
  · intro event
    exact ⟨fsku, hku, by simp [primOutputs, hku, fireKeyUp_map]⟩
  · intro ch
    exact ⟨fsic, hic, by simp [primOutputs, hic, fireInputChar_map]⟩
  · exact fun elapsed => ⟨fsdr, hdr, by simp [primOutputs, hdr, fireDraw_map]⟩
  · exact fun width height => ⟨fswr, hwr, by simp [primOutputs, hwr, fireWindowResized_map]⟩

/-- Witness for C3: the sample registry is well formed, and a key press on a
node with that registry fires its key-down listener list in full. -/
theorem listeners_all_fire_in_order_witness :
    WellFormedListeners sampleListeners
    ∧ (∃ fs : List (Shape → KeyboardEvent → ℕ), sampleListeners EventName.onKeyDown = fs.map Listener.onKeyDown ∧
        primOutputs Shape.group sampleListeners
            (.input (.keyDown (KeyboardEvent.mk 0 none)))
          = fs.map fun f => f Shape.group (KeyboardEvent.mk 0 none)) := by
  have hwf : WellFormedListeners sampleListeners := by
    intro k l hl
    cases k <;> (simp only [sampleListeners, List.mem_singleton] at hl; subst hl; rfl)
  exact ⟨hwf, (listeners_all_fire_in_order Shape.group sampleListeners hwf).2.2.2.1
    (KeyboardEvent.mk 0 none)⟩

/-- C8: key-down, key-up and input-char events fire the node's matching
listeners for every shape whatsoever (no spatial gating); a draw event
fires the draw listeners unconditionally, passing the elapsed duration; a
window-resize event fires the resize listeners unconditionally, passing the
new width and height. -/
theorem keyboard_draw_resize_unconditional {Msg : Type} (shape : Shape)
    (listeners : Listeners Msg) :
    (∀ (event : KeyboardEvent) (fs : List (Shape → KeyboardEvent → Msg)),
      listeners EventName.onKeyDown = fs.map Listener.onKeyDown →
      primOutputs shape listeners (.input (.keyDown event))
        = fs.map fun f => f shape event)
    ∧ (∀ (event : KeyboardEvent) (fs : List (Shape → KeyboardEvent → Msg)),
      listeners EventName.onKeyUp = fs.map Listener.onKeyUp →
      primOutputs shape listeners (.input (.keyUp event))
        = fs.map fun f => f shape event)
    ∧ (∀ (ch : Char) (fs : List (Shape → Char → Msg)),
      listeners EventName.onInputChar = fs.map Listener.onInputChar →
      primOutputs shape listeners (.input (.char ch)) = fs.map fun f => f shape ch)
    ∧ (∀ (elapsed : Real) (fs : List (Real → Msg)),
      listeners EventName.draw = fs.map Listener.draw →
      primOutputs shape listeners (.draw elapsed) = fs.map fun f => f elapsed)
    ∧ (∀ (width height : ℕ) (fs : List (ℕ → ℕ → Msg)),
      listeners EventName.windowResized = fs.map Listener.windowResized →
      primOutputs shape listeners (.windowResized width height)
        = fs.map fun f => f width height) := by
  refine ⟨?_, ?_, ?_, ?_, ?_⟩
  · intro event fs h; simp [primOutputs, h, fireKeyDown_map]
  · intro event fs h; simp [primOutputs, h, fireKeyUp_map]
  · intro ch fs h; simp [primOutputs, h, fireInputChar_map]
  · intro elapsed fs h; simp [primOutputs, h, fireDraw_map]
  · intro width height fs h; simp [primOutputs, h, fireWindowResized_map]

/-- Witness for C8: with the sample registry, a key press fires message 4 on
any shape, a draw tick fires message 7 passing the elapsed time, and a
resize fires message 8 passing the dimensions. -/
theorem keyboard_draw_resize_unconditional_witness :
    sampleListeners EventName.onKeyDown = [fun _ _ => 4].map Listener.onKeyDown
    ∧ primOutputs (Shape.rect 0 0 0 0) sampleListeners
        (.input (.keyDown (KeyboardEvent.mk 0 none))) = [4]
    ∧ primOutputs Shape.group sampleListeners (.draw 1) = [7]
    ∧ primOutputs Shape.group sampleListeners (.windowResized 3 4) = [8] := by
  refine ⟨rfl, ?_, ?_, ?_⟩
  · exact (keyboard_draw_resize_unconditional (Shape.rect 0 0 0 0) sampleListeners).1
      (KeyboardEvent.mk 0 none) [fun _ _ => 4] rfl
  · exact (keyboard_draw_resize_unconditional Shape.group sampleListeners).2.2.2.1
      1 [fun _ => 7] rfl
  · exact (keyboard_draw_resize_unconditional Shape.group sampleListeners).2.2.2.2
      3 4 [fun _ _ => 8] rfl

/-- C9: in the host redraw branch, when the component's `update_view`
returns `None` no render is issued and the loop idles; when it returns
`Some` and the renderer answers, the renderer was invoked and the buffer
swap mirrors the renderer's boolean; and in every non-aborted pass the swap
happens if and only if the renderer was invoked and returned `true`. -/
theorem redraw_render_swap_gating {E : Type} (uv : Option UpdateView)
    (r : Except E Bool) :
    (uv = none → redraw_step uv r = Except.ok (RedrawOutcome.mk false false true))
    ∧ (∀ (v : UpdateView) (b : Bool), uv = some v → r = Except.ok b →
        redraw_step uv r = Except.ok (RedrawOutcome.mk true b false))
    ∧ (∀ o : RedrawOutcome, redraw_step uv r = Except.ok o →
        (o.swapped = true ↔ o.rendered = true ∧ r = Except.ok true)) := by
  refine ⟨?_, ?_, ?_⟩
  · intro h; subst h; rfl
  · intro v b hu hr; subst hu; subst hr; rfl
  · intro o ho
    cases uv with
    | none =>
        simp only [redraw_step, Option.isSome_none, Bool.false_eq_true, if_false,
          Except.ok.injEq] at ho
        subst ho
        simp
    | some v =>
        cases r with
        | ok b =>
            simp only [redraw_step, Option.isSome_some, if_true, Except.ok.injEq] at ho
            subst ho
            cases b <;> simp
        | error e =>
            simp [redraw_step] at ho

/-- Witness for C9: with a dirty view and a renderer that reports having
drawn, the pass renders and swaps. -/
theorem redraw_render_swap_gating_witness :
    redraw_step (some UpdateView.modify) (Except.ok true : Except Unit Bool)
      = Except.ok (RedrawOutcome.mk true true false) :=
  (redraw_render_swap_gating (some UpdateView.modify)
    (Except.ok true : Except Unit Bool)).2.1 UpdateView.modify true rfl rfl

/-- C10: a `MouseController` on which `update_pos` was never applied (its
stored position is still absent, as after `new`) reports the origin from
`last_pos`, so the press and scroll messages it builds carry position
(0, 0); `new` indeed starts with no stored position, and `update_pos`
always stores one. -/
theorem mouse_last_pos_defaults_origin (c : MouseController)
    (h : c.lastPosField = none) :
    c.last_pos = MousePos.mk 0 0
    ∧ (∀ button : MouseButton, c.pressed_msg button
        = SystemMessage.input (InputEvent.mouseDown
            (MouseDown.mk (MousePos.mk 0 0) button)))
    ∧ (∀ delta : Real × Real, c.scroll_msg delta
        = SystemMessage.input (InputEvent.mouseScroll
            (MouseScroll.mk (MousePos.mk 0 0) delta)))
    ∧ MouseController.new.lastPosField = none
    ∧ (∀ (c2 : MouseController) (x y : Real),
        (c2.update_pos x y).lastPosField ≠ none) := by
  have hlp : c.last_pos = MousePos.mk 0 0 := by
    rw [MouseController.last_pos, h]
    rfl
  refine ⟨hlp, ?_, ?_, rfl, ?_⟩
  · intro button
    rw [MouseController.pressed_msg, hlp]
    rfl
  · intro delta
    rw [MouseController.scroll_msg, hlp]
    rfl
  · intro c2 x y
    simp [MouseController.update_pos]

/-- Witness for C10: the fresh controller has no stored position and reports
the origin. -/
theorem mouse_last_pos_defaults_origin_witness :
    MouseController.new.lastPosField = none
    ∧ MouseController.new.last_pos = MousePos.mk 0 0
    ∧ MouseController.new.pressed_msg MouseButton.left
        = SystemMessage.input (InputEvent.mouseDown
            (MouseDown.mk (MousePos.mk 0 0) MouseButton.left)) := by
  have x := mouse_last_pos_defaults_origin MouseController.new rfl
  exact ⟨rfl, x.1, x.2.1 MouseButton.left⟩

end Engel
